import Mathlib

/-!
Verification development for the row-oriented bulk loader / reconciliation
engine of the mibios repository (src/mibios/load.py and the CSV_Spec helper
in src/mibios_umrad/utils.py).

The loader is embedded shallowly: Python dicts become association lists,
Django model instances become `Entity` values, the persistent store becomes
an explicit `Store` list threaded through every operation, and exceptions
become `Except` results.  Because Python exceptions do not undo mutations of
Python objects, an error result carries the mutated run state alongside the
error; only the database store is rolled back by the enclosing
`transaction.atomic` scopes, which are modelled explicitly at the line and
file level.
-/

namespace Mibios

/-! ## Association lists (Python dict operations) -/

/-- Maps with string keys and string values, as ordered association lists.
First occurrence of a key wins on lookup, matching Python dict semantics
when keys are unique (which the loader's dicts are). -/
abbrev Assoc := List (String × String)

/-- Lookup: value of the first pair with the given key, if any. -/
def aGet? (l : Assoc) (k : String) : Option String :=
  (l.find? (fun kv => kv.1 == k)).map (fun kv => kv.2)

/-- Lookup with a default value, like Python dict.get. -/
def aGetD (l : Assoc) (k : String) (d : String) : String :=
  (aGet? l k).getD d

/-- Python dict assignment d[k] = v: replace the value at the first
occurrence of the key, or append a new pair. -/
def aSet (l : Assoc) (k v : String) : Assoc :=
  match l with
  | [] => [(k, v)]
  | kv :: t => if kv.1 == k then (k, v) :: t else kv :: aSet t k v

/-- Python dict.pop side of removal: drop every pair with the given key
(the loader's dicts have unique keys, so at most one pair is dropped). -/
def aRemove (l : Assoc) (k : String) : Assoc :=
  l.filter (fun kv => kv.1 != k)

/-- Build a Python dict from a sequence of key/value pairs: later pairs
overwrite the value of earlier pairs with the same key. -/
def pyDictOf (l : Assoc) : Assoc :=
  l.foldl (fun d kv => aSet d kv.1 kv.2) []

/-! ## CSV_Spec (src/mibios_umrad/utils.py lines 319-387) -/

/-- One column descriptor of a CSV_Spec: either a tuple
(colname, key, optional converter) for tables with a header line, or a bare
key for positional tables.  A `none` key marks a column to be ignored.
Converter functions are opaque `String -> String` maps (the source checks
that a supplied converter is callable; the type makes that automatic). -/
inductive ColDesc
  | withHeader (colname : String) (key : Option String) (conv : Option (String → String))
  | bare (key : Option String)

/-- The state built by CSV_Spec.setup (src/mibios_umrad/utils.py 330-376).
`cols` is initialised to an empty list and never appended to by the source
loop, which is reproduced here.  `hasHeader` is set by every iteration of
the loop, so it remains `none` only for an empty descriptor list. -/
structure CSVSpec where
  hasHeader : Option Bool
  cols : List String
  all_cols : List String
  all_keys : List (Option String)
  keys : List String
  convfuncs : List (Option (String → String))

/-- CSV_Spec.setup: one fold over the descriptors, appending to the
accumulated header/key/converter lists exactly as the source loop does. -/
def csvSetup (specs : List ColDesc) : CSVSpec :=
  specs.foldl
    (fun s d =>
      match d with
      | .withHeader colname key conv =>
        { s with
          hasHeader := some true
          all_cols := s.all_cols ++ [colname]
          all_keys := s.all_keys ++ [key]
          keys := s.keys ++ (match key with | none => [] | some k => [k])
          convfuncs := s.convfuncs ++ (match key with | none => [] | some _ => [conv]) }
      | .bare key =>
        { s with
          hasHeader := some false
          all_keys := s.all_keys ++ [key]
          keys := s.keys ++ (match key with | none => [] | some k => [k])
          convfuncs := s.convfuncs ++ (match key with | none => [] | some _ => [none]) })
    ⟨none, [], [], [], [], []⟩

/-- CSV_Spec.__init__ (src/mibios_umrad/utils.py 323-328): constructing a
spec from an empty descriptor list raises
ValueError('at least one column needs to be declared'); this ValueError is
the spec's ConfigurationError.  Otherwise setup() runs and the spec is
returned. -/
def CSV_Spec_init (specs : List ColDesc) : Except String CSVSpec :=
  if specs.isEmpty then .error "at least one column needs to be declared"
  else .ok (csvSetup specs)

/-- Core of CSV_Spec.cut over an explicit key list: the source generator
`for key, value in zip(self.all_keys, row): if key is not None: yield value`
(src/mibios_umrad/utils.py 381-387). -/
def cutKeys (ks : List (Option String)) (row : List String) : List String :=
  ((ks.zip row).filter (fun kv => kv.1.isSome)).map (fun kv => kv.2)

/-- CSV_Spec.cut. -/
def CSVSpec.cut (s : CSVSpec) (row : List String) : List String :=
  cutKeys s.all_keys row

/-! ## Domain entities and the persistent store

A domain entity is a record in the persistent store: a model (type) name, a
primary key assigned when it is first saved, and its attribute values.  An
attribute that was never set reads as the empty string, matching a blank
Django CharField. -/

structure Entity where
  id : Option Nat
  model : String
  attrs : Assoc
deriving DecidableEq

/-- getattr(obj, field): the current value of a field, empty if unset. -/
def Entity.get (e : Entity) (k : String) : String :=
  aGetD e.attrs k ""

/-- `for k, v in from_row.items(): setattr(obj, k, v)`
(src/mibios/load.py 154-155). -/
def Entity.setAll (e : Entity) (fromRow : Assoc) : Entity :=
  { e with attrs := fromRow.foldl (fun a kv => aSet a kv.1 kv.2) e.attrs }

/-- Modelled from the spec: `Model.compare` is defined in mibios/models.py,
which is not included under src/ (src/mibios/load.py line 140 calls it).
Spec section 4.3 step 3: compute a field-by-field diff between the existing
entity's current values and the proposed values; the row is "consistent"
when every differing field's current value is itself empty/unset.  Returns
(consistent, diff) as the call site destructures it. -/
def Entity.compare (e : Entity) (fromRow : Assoc) : Bool × List String :=
  let diff := (fromRow.filter (fun kv => e.get kv.1 != kv.2)).map (fun kv => kv.1)
  (diff.all (fun k => e.get k == ""), diff)

/-- The persistent store: all saved entities, in insertion order. -/
abbrev Store := List Entity

/-! ## Errors

The loader distinguishes ValidationError, IntegrityError and UserDataError
(caught per line when warn-on-error is active) from everything else, which
is fatal.  The spec's AmbiguousLookupError is the UserDataError raised when
a lookup matches more than one entity, and the spec's ConfigurationError is
the CSV_Spec construction-time ValueError above. -/

inductive LoadErr
  | validation (msg : String)
  | integrity (msg : String)
  | userData (msg : String)
  | runtimeError (msg : String)
deriving DecidableEq

/-- Whether process_line's except clause catches this error
(src/mibios/load.py 205). -/
def LoadErr.catchable : LoadErr → Bool
  | .runtimeError _ => false
  | _ => true

/-- type(e).__name__, as used when recording warnings. -/
def LoadErr.errName : LoadErr → String
  | .validation _ => "ValidationError"
  | .integrity _ => "IntegrityError"
  | .userData _ => "UserDataError"
  | .runtimeError _ => "RuntimeError"

/-- The user-facing message of the error.  For a ValidationError the source
renders str(e.message_dict); that rendering is taken as the message
carried by the error itself. -/
def LoadErr.msg : LoadErr → String
  | .validation m => m
  | .integrity m => m
  | .userData m => m
  | .runtimeError m => m

/-- raise type(e)(msg): the same kind of error with a new message. -/
def LoadErr.withMsg : LoadErr → String → LoadErr
  | .validation _, m => .validation m
  | .integrity _, m => .integrity m
  | .userData _, m => .userData m
  | .runtimeError _, m => .runtimeError m

/-! ## Loader configuration and run state -/

/-- The loader options consulted by the reconciler and driver, plus the two
external collaborators they call into: `valid` is the schema-validation
hook (obj.full_clean(); `none` means the entity validates, `some m` means a
ValidationError with message m), and `ignoredColumns` is the list computed
at construction time from the input header (see loaderCols below).
The strict_sample_id and user options only affect code paths that no claim
depends on and are omitted. -/
structure Env where
  canOverwrite : Bool
  warnOnError : Bool
  ignoredColumns : List String
  valid : Entity → Option String

/-- The mutable state touched by the reconciler: the persistent store, the
next free primary key, and the run counters self.new, self.added and
self.changed.  A changed record holds the model name, the pre-change entity
and the (field, old value, proposed value) triples, in the order recorded. -/
structure RunSt where
  store : Store
  nextId : Nat
  new : List (String × Nat)
  added : List (String × Nat)
  changed : List (String × Entity × List (String × String × String))
deriving DecidableEq

/-- Counter lookup: a missing key counts as zero. -/
def cGet (c : List (String × Nat)) (k : String) : Nat :=
  ((c.find? (fun kv => kv.1 == k)).map (fun kv => kv.2)).getD 0

/-- Counter increment self.c[k] += 1, in place. -/
def cInc (c : List (String × Nat)) (k : String) : List (String × Nat) :=
  if (c.find? (fun kv => kv.1 == k)).isSome then
    c.map (fun kv => if kv.1 == k then (kv.1, kv.2 + 1) else kv)
  else
    c ++ [(k, 1)]

/-- obj.save() for a brand new entity: the store appends it under a fresh
primary key (database sequences are not rewound by rollbacks, so nextId
only ever grows). -/
def saveNew (st : RunSt) (obj : Entity) : RunSt :=
  { st with
    store := st.store ++ [{ obj with id := some st.nextId }]
    nextId := st.nextId + 1 }

/-- obj.save() for an already stored entity: update the row with the same
primary key. -/
def saveExisting (st : RunSt) (obj : Entity) : RunSt :=
  { st with store := st.store.map (fun e => if e.id == obj.id then obj else e) }

/-! ## AbstractLoader.account (src/mibios/load.py 121-159)

obj.add_change_record (the audit-trail append, defined in mibios/models.py
outside src/) cannot fail and is not consulted by any claim; it is omitted
here.  The final `self.rec[model_name] = obj` feeds the working record
accumulator of the concrete loaders, which the simplified row model below
does not consume. -/

def account (env : Env) (st : RunSt) (obj : Entity) (isNew : Bool)
    (fromRow : Option Assoc) : Except (LoadErr × RunSt) RunSt :=
  if isNew then
    -- self.new[model_name] += 1 happens before full_clean, so a raised
    -- ValidationError leaves the counter incremented
    let st1 := { st with new := cInc st.new obj.model }
    match env.valid obj with
    | some m => .error (.validation m, st1)
    | none => .ok (saveNew st1 obj)
  else
    match fromRow with
    | none => .ok st
    | some fr =>
      let cd := obj.compare fr
      if cd.2.isEmpty then .ok st
      else
        let st1 :=
          if cd.1 then
            { st with added := cInc st.added obj.model }
          else
            { st with changed := st.changed ++
                [(obj.model, obj, cd.2.map (fun i => (i, obj.get i, aGetD fr i "")))] }
        if cd.1 || env.canOverwrite then
          let obj2 := obj.setAll fr
          match env.valid obj2 with
          | some m => .error (.validation m, st1)
          | none => .ok (saveExisting st1 obj2)
        else .ok st1

/-! ## GeneralLoader.process_row, one entity step
(src/mibios/load.py 633-741)

The traversal that turns a normalized row into per-entity work items uses
DeepRecord (mibios/utils.py, not under src/); a row is therefore modelled
directly as the list of (model name, field dict) items it produces, in
leaves-first order.  Many-to-many field separation (src 696-702) needs the
model field metadata of the external registry and is not consulted by any
claim; the scalar leaf-value branch (src 675-676) likewise only arises
from DeepRecord leaves.  The dict branch is embedded faithfully. -/

/-- One entity work item of a row: the model name and the parsed fields. -/
abbrev Step := String × Assoc

/-- A row, as the ordered list of entity steps it gives rise to. -/
abbrev Row := List Step

/-- Separating identifiers from other fields (src/mibios/load.py 690-693):
`for i in ['natural', 'id', 'name']: if i in data:
id_arg.update(natural=data.pop(i))`.  Every present key is popped out of
data and the single id_arg key 'natural' is overwritten in turn. -/
def popIds (data : Assoc) : Assoc × Assoc :=
  ["natural", "id", "name"].foldl
    (fun acc i =>
      match aGet? acc.2 i with
      | some v => (aSet acc.1 "natural" v, aRemove acc.2 i)
      | none => acc)
    ([], data)

/-- The lookup arguments actually used: `if not id_arg: id_arg = data`
(src/mibios/load.py 704-707). -/
def effIdArg (d : Assoc) : Assoc :=
  if (popIds d).1.isEmpty then (popIds d).2 else (popIds d).1

/-- The non-identifying data actually kept: emptied when it was promoted to
the lookup arguments. -/
def effData (d : Assoc) : Assoc :=
  if (popIds d).1.isEmpty then [] else (popIds d).2

/-- model.objects.get(**id_arg): every entity of the model whose attributes
match all lookup pairs. -/
def lookupEntities (store : Store) (model : String) (idArg : Assoc) : List Entity :=
  store.filter (fun e => e.model == model && idArg.all (fun kv => e.get kv.1 == kv.2))

/-- The message of the UserDataError raised on an ambiguous lookup:
'{id_arg} is not specific enough for {model_name}' (src/mibios/load.py
718-720), with the id_arg dict rendered as key=value pairs. -/
def ambigMsg (idArg : Assoc) (model : String) : String :=
  String.intercalate ", " (idArg.map (fun kv => kv.1 ++ "=" ++ kv.2))
    ++ " is not specific enough for " ++ model

/-- One iteration of the process_row loop for an entity step
(src/mibios/load.py 709-733): get the entity by its identifying keys;
DoesNotExist constructs a fresh entity from identifiers plus data;
MultipleObjectsReturned becomes the user-data ambiguity error; then
account() classifies and applies.  (The NaturalKeyLookupError branch
belongs to the natural-key machinery of mibios/models.py, outside src/.) -/
def process_step (env : Env) (st : RunSt) (s : Step) : Except (LoadErr × RunSt) RunSt :=
  match lookupEntities st.store s.1 (effIdArg s.2) with
  | [] => account env st { id := none, model := s.1, attrs := effIdArg s.2 ++ effData s.2 }
      true (some (effData s.2))
  | [e] => account env st e false (some (effData s.2))
  | _ => .error (.userData (ambigMsg (effIdArg s.2) s.1), st)

/-- process_row: the steps of a row in order, stopping at the first error.
IntegrityError, UserDataError and ValidationError propagate as themselves
(src/mibios/load.py 734-735). -/
def process_row (env : Env) (st : RunSt) : Row → Except (LoadErr × RunSt) RunSt
  | [] => .ok st
  | s :: rest =>
    match process_step env st s with
    | .ok st2 => process_row env st2 rest
    | .error e => .error e

/-! ## The batch driver (src/mibios/load.py 76-107 and 178-255) -/

/-- The per-file mutable state of process_file/process_line: the reconciler
state plus the line counter, the row count, the emitted warnings and the
pending coalesced warning (error name, message, first line, last line). -/
structure LineSt where
  run : RunSt
  linenum : Nat
  count : Nat
  warnings : List String
  lastWarning : Option (String × String × Nat × Nat)
deriving DecidableEq

/-- The repeated-warnings bookkeeping of process_line (src/mibios/load.py
221-245): a warning identical to the pending one on the immediately next
line widens the pending line span; anything else emits the pending warning
(and, for a span of more than one line, a second continuation entry) and
makes the new warning pending. -/
def noteWarning (warnings : List String)
    (lastW : Option (String × String × Nat × Nat))
    (errName msg : String) (linenum : Nat) :
    List String × Option (String × String × Nat × Nat) :=
  match lastW with
  | none => (warnings, some (errName, msg, linenum, linenum))
  | some (lastErr, lastMsg, firstLine, lastLine) =>
    if msg == lastMsg && lastLine + 1 == linenum then
      (warnings, some (lastErr, msg, firstLine, linenum))
    else
      let w1 := warnings ++
        ["skipping row: at line " ++ toString firstLine ++ ": " ++ lastMsg
          ++ " (" ++ lastErr ++ ")"]
      let w2 :=
        if lastLine != firstLine then
          w1 ++ ["    (and for next " ++ toString (lastLine - firstLine) ++ " lines)"]
        else w1
      (w2, some (errName, msg, linenum, linenum))

/-- 'at line {}: {}' — the context added when re-raising (the source also
appends the repr of the current row, whose rendering is not modelled). -/
def wrapLineMsg (linenum : Nat) (msg : String) : String :=
  "at line " ++ toString linenum ++ ": " ++ msg

/-- process_line (src/mibios/load.py 178-255), driving one row inside its
nested transaction.atomic scope.  On a caught error the nested scope rolls
the store back to its pre-line state; the counter backups taken at lines
199-201 (`new_ = self.new` and friends) are mere aliases of the Counter and
defaultdict objects that account() mutates in place, so the "reset stats"
rebindings at lines 247-249 do not undo any increments — the mutated
counters survive, and only the store is restored.  self.count += 1 runs
after the try block, so it is reached on success and on a caught error, but
not when the error is re-raised. -/
def process_line (env : Env) (st : LineSt) (row : Row) :
    Except (LoadErr × LineSt) LineSt :=
  let st1 := { st with linenum := st.linenum + 1 }
  match process_row env st1.run row with
  | .ok run2 => .ok { st1 with run := run2, count := st1.count + 1 }
  | .error (e, runE) =>
    let runR := { runE with store := st.run.store }
    if e.catchable then
      if env.warnOnError then
        let ws := noteWarning st1.warnings st1.lastWarning e.errName e.msg st1.linenum
        .ok { st1 with run := runR, warnings := ws.1, lastWarning := ws.2,
                       count := st1.count + 1 }
      else
        .error (e.withMsg (wrapLineMsg st1.linenum e.msg), { st1 with run := runR })
    else
      .error (e.withMsg (wrapLineMsg st1.linenum e.msg), { st1 with run := runR })

/-- An upper bound on the primary keys present in a store, used to seed
nextId. -/
def maxIdBound (store : Store) : Nat :=
  store.foldl (fun a e => max a ((e.id.getD 0) + 1)) 0

/-- The loader state at the start of process_file: counters empty (set in
__init__), linenum 1 (the header line was line 1), no pending warning. -/
def initLineSt (store0 : Store) : LineSt :=
  { run := { store := store0, nextId := maxIdBound store0,
             new := [], added := [], changed := [] },
    linenum := 1, count := 0, warnings := [], lastWarning := none }

/-- The `for i in file: self.process_line(i)` loop of process_file. -/
def goLines (env : Env) (st : LineSt) : List Row → Except (LoadErr × LineSt) LineSt
  | [] => .ok st
  | r :: rs =>
    match process_line env st r with
    | .ok st2 => goLines env st2 rs
    | .error e => .error e

/-- The statistics dict returned by process_file (src/mibios/load.py
98-107). -/
structure Stats where
  count : Nat
  new : List (String × Nat)
  added : List (String × Nat)
  changed : List (String × Entity × List (String × String × String))
  ignored : List String
  warnings : List String
  dry_run : Bool
  overwrite : Bool
deriving DecidableEq

def mkStats (env : Env) (dryRun : Bool) (st : LineSt) : Stats :=
  { count := st.count, new := st.run.new, added := st.run.added,
    changed := st.run.changed, ignored := env.ignoredColumns,
    warnings := st.warnings, dry_run := dryRun, overwrite := env.canOverwrite }

/-- The statistics fields common to dry and non-dry runs. -/
def statsCore (s : Stats) :
    Nat × List (String × Nat) × List (String × Nat)
      × List (String × Entity × List (String × String × String))
      × List String × List String :=
  (s.count, s.new, s.added, s.changed, s.ignored, s.warnings)

/-- At the top of process_file an escaping UserDataError is re-raised as
itself, and any other escaping exception is wrapped into a RuntimeError
('Failed processing line: ...', src/mibios/load.py 92-96). -/
def fileWrap : LoadErr → LoadErr
  | .userData m => .userData m
  | _ => .runtimeError "Failed processing line"

/-- process_file (src/mibios/load.py 76-107): all lines inside one outer
transaction.atomic scope; on an escaping error the outer scope rolls every
write back and the error propagates; on success the statistics are built
and, when dry_run was requested, a DryRunRollback is raised inside the
scope so the store likewise reverts to its initial state.  The dry_run
option is an attribute set in __init__ but, as the class docstring notes,
it is only acted on when process_file is about to finish, so it enters here
as an explicit argument.  The result pairs the outcome with the store as
the caller observes it after the run. -/
def process_file (env : Env) (dryRun : Bool) (store0 : Store) (rows : List Row) :
    Except LoadErr Stats × Store :=
  match goLines env (initLineSt store0) rows with
  | .error (e, _) => (.error (fileWrap e), store0)
  | .ok st =>
    (.ok (mkStats env dryRun st), if dryRun then store0 else st.run.store)

/-! ## Header matching and row normalization
(src/mibios/load.py 41-53 and 161-195) -/

/-- str.casefold, modelled as per-character lower-casing (the repository's
headers are ASCII, where the two coincide). -/
def casefold (s : String) : String := String.mk (s.data.map Char.toLower)

/-- `_cols = {i.casefold(): j for i, j in self.COLS}` (src/mibios/load.py
45): the casefolded header-to-internal-name dict.  In a Python dict
comprehension a later pair overwrites an earlier one with the same key, so
lookup searches the reversed list. -/
def lookupCol (COLS : List (String × String)) (c : String) : Option String :=
  aGet? ((COLS.map (fun hk => (casefold hk.1, hk.2))).reverse) (casefold c)

/-- The header-matching loop of AbstractLoader.__init__ (src/mibios/load.py
46-53): every input header either maps to its internal name, or passes
through under its own name and is recorded as an ignored column.  Returns
(self.cols, self.ignored_columns). -/
def loaderCols (COLS : List (String × String)) : List String → List String × List String
  | [] => ([], [])
  | c :: rest =>
    let r := loaderCols COLS rest
    match lookupCol COLS c with
    | some j => (j :: r.1, r.2)
    | none => (c :: r.1, c :: r.2)

/-- An entry of self.missing_data: either a literal string compared with ==
or a compiled pattern matched against the value (src/mibios/load.py
168-173). -/
inductive MissingSpec
  | lit (s : String)
  | pat (check : String → Bool)

/-- AbstractLoader.non_empty (src/mibios/load.py 161-176): a value is empty
when it equals (or matches) an entry of the missing-data list, or when the
domain blank-decoding maps it to the empty string.  `decodeBlank` stands in
for Model.decode_blank, which lives in mibios/models.py outside src/;
modelled from the spec as the domain-specific blank-decoding function. -/
def non_empty (missingData : List MissingSpec) (decodeBlank : String → String)
    (v : String) : Bool :=
  missingData.all (fun m =>
    match m with
    | .lit s => v != s
    | .pat p => !(p v))
  && decodeBlank v != ""

/-- Splitting one input line (src/mibios/load.py 186): strip the line,
split on the separator, strip each field. -/
def stripFields (sep line : String) : List String :=
  (line.trim.splitOn sep).map (fun f => f.trim)

/-- The normalized row (src/mibios/load.py 189-195): zip the per-column
internal-or-original names with the stripped fields, keep the pairs whose
value is non-empty and whose name is a valid internal name, and build the
dict. -/
def normalizedRow (COLS : List (String × String)) (cols : List String)
    (missingData : List MissingSpec) (decodeBlank : String → String)
    (fields : List String) : Assoc :=
  let validCols := COLS.map (fun hk => hk.2)
  pyDictOf ((cols.zip fields).filter
    (fun kv => non_empty missingData decodeBlank kv.2 && validCols.contains kv.1))

/-! ## Auxiliary notions used by the theorems -/

/-- Iterate the repeated-warnings bookkeeping over a sequence of caught
(error name, message, line number) events. -/
def feedWarnings (st : List String × Option (String × String × Nat × Nat)) :
    List (String × String × Nat) → List String × Option (String × String × Nat × Nat)
  | [] => st
  | (en, m, l) :: rest => feedWarnings (noteWarning st.1 st.2 en m l) rest

/-- n caught errors with the same error name and message on consecutive
lines starting at l0. -/
def sameRun (en m : String) (l0 : Nat) : Nat → List (String × String × Nat)
  | 0 => []
  | k + 1 => (en, m, l0) :: sameRun en m (l0 + 1) k

/-- The entity a step creates before it is saved:
model(**id_arg, **data). -/
def mkNewEntity (s : Step) : Entity :=
  { id := none, model := s.1, attrs := effIdArg s.2 ++ effData s.2 }

/-- The same entity once saved under primary key i. -/
def savedEntity (i : Nat) (s : Step) : Entity :=
  { mkNewEntity s with id := some i }

/-- The store produced by creating the given steps in order, with primary
keys counting up from i0. -/
def storeOf (i0 : Nat) : List Step → Store
  | [] => []
  | s :: rest => savedEntity i0 s :: storeOf (i0 + 1) rest

/-- A well-formed step for the idempotence property: it identifies its
entity by a natural key (so its lookup arguments are exactly the single
pair ('natural', n)), its remaining data neither repeats a key nor reuses
the key 'natural', and the entity it creates passes validation. -/
abbrev StepOK (env : Env) (s : Step) : Prop :=
  (effIdArg s.2).map (fun kv => kv.1) = ["natural"]
  ∧ aGet? (effData s.2) "natural" = none
  ∧ ((effData s.2).map (fun kv => kv.1)).Nodup
  ∧ env.valid (mkNewEntity s) = none

/-- The natural key of a step: its model name together with the value of
its 'natural' lookup argument. -/
def stepKey (s : Step) : String × String :=
  (s.1, aGetD (effIdArg s.2) "natural" "")

/-! # Theorems -/

/-- C2: for every input, a dry run produces the same statistics
(count, new, added, changed, ignored, warnings) as a normal run from the
same initial store — the dry_run option is consulted only once the whole
file has been processed — and a dry run always leaves the persistent store
in its initial state: on success the DryRunRollback forced at end of file
undoes the outer transaction, and on failure the outer transaction is
rolled back anyway. -/
theorem dry_run_same_stats_no_writes (env : Env) (store0 : Store) (rows : List Row) :
    (process_file env true store0 rows).2 = store0
  ∧ (process_file env true store0 rows).1.map statsCore
      = (process_file env false store0 rows).1.map statsCore := by
  unfold process_file
  cases goLines env (initLineSt store0) rows with
  | error e => simp
  | ok st => simp [mkStats, statsCore, Except.map]

/-- C8: constructing a CSV_Spec from an empty descriptor list fails at
construction time with the configuration error
'at least one column needs to be declared', while construction from any
non-empty descriptor list succeeds. -/
theorem csv_spec_empty_rejected (specs : List ColDesc) (h : specs ≠ []) :
    CSV_Spec_init [] = .error "at least one column needs to be declared"
  ∧ ∃ s, CSV_Spec_init specs = .ok s := by
  refine ⟨rfl, ?_⟩
  cases specs with
  | nil => exact absurd rfl h
  | cons d rest => exact ⟨csvSetup (d :: rest), rfl⟩

/-- Witness for C8 at a concrete one-descriptor list. -/
theorem csv_spec_empty_rejected_w :
    ∃ s, CSV_Spec_init [ColDesc.bare (some "k")] = .ok s :=
  (csv_spec_empty_rejected [ColDesc.bare (some "k")] (List.cons_ne_nil _ _)).2

/-- cut ignores row fields beyond the declared positions. -/
theorem cutKeys_take_right (ks : List (Option String)) (row : List String) :
    cutKeys ks row = cutKeys ks (row.take ks.length) := by
  induction ks generalizing row with
  | nil => simp [cutKeys]
  | cons a t ih =>
    cases row with
    | nil => simp [cutKeys]
    | cons v vs =>
      simp only [cutKeys, List.length_cons, List.take_succ_cons, List.zip_cons_cons,
        List.filter_cons]
      cases a with
      | none => simpa [cutKeys] using ih vs
      | some k => simpa [cutKeys] using ih vs

/-- cut ignores declared positions beyond the row length. -/
theorem cutKeys_take_left (ks : List (Option String)) (row : List String) :
    cutKeys ks row = cutKeys (ks.take row.length) row := by
  induction ks generalizing row with
  | nil => simp [cutKeys]
  | cons a t ih =>
    cases row with
    | nil => simp [cutKeys]
    | cons v vs =>
      simp only [cutKeys, List.length_cons, List.take_succ_cons, List.zip_cons_cons,
        List.filter_cons]
      cases a with
      | none => simpa [cutKeys] using ih vs
      | some k => simpa [cutKeys] using ih vs

/-- C10: CSV_Spec.cut yields exactly the values at positions whose declared
semantic key is not None, in declaration order: a kept position contributes
its value, an ignored position contributes nothing, exhausting either the
row or the declared positions stops the scan without error, a shorter row
is cut as if only its first len(row) positions were declared, and the
trailing fields of a longer row are silently dropped. -/
theorem cut_yields_non_ignored_positions (s : CSVSpec) (k v : String)
    (ks : List (Option String)) (row : List String) :
    s.cut row = cutKeys s.all_keys row
  ∧ cutKeys (some k :: ks) (v :: row) = v :: cutKeys ks row
  ∧ cutKeys (none :: ks) (v :: row) = cutKeys ks row
  ∧ cutKeys ks [] = []
  ∧ cutKeys [] row = []
  ∧ cutKeys ks row = cutKeys ks (row.take ks.length)
  ∧ cutKeys ks row = cutKeys (ks.take row.length) row := by
  refine ⟨rfl, by simp [cutKeys], by simp [cutKeys], ?_, by simp [cutKeys],
    cutKeys_take_right ks row, cutKeys_take_left ks row⟩
  cases ks <;> simp [cutKeys]

/-- C3 (code bug): in warn-on-error mode a line that increments a counter
and then fails does NOT have the counter reverted.  account() increments
self.new before obj.full_clean() can raise, the backups taken at
src/mibios/load.py 199-201 alias the very Counter objects that were
mutated in place, and the rebinding at 247-249 therefore restores nothing.
Here a single line creates a new entity of model "m" that fails
validation: the line's effects are discarded (store stays empty, the error
is converted into a pending warning), yet the returned state reports
new["m"] = 1 where the pre-line value was 0. -/
theorem counters_survive_caught_error :
    (process_line
        ⟨false, true, [], fun e => if e.get "x" == "bad" then some "invalid x" else none⟩
        (initLineSt []) [("m", [("natural", "n"), ("x", "bad")])]).toOption.map
      (fun st => (cGet st.run.new "m", st.run.store))
      = some (1, [])
  ∧ cGet (initLineSt []).run.new "m" = 0 := by
  exact ⟨rfl, rfl⟩

/-- Every successful process_line call adds exactly one to self.count. -/
theorem process_line_ok_count (env : Env) (st : LineSt) (row : Row) (st2 : LineSt)
    (h : process_line env st row = .ok st2) : st2.count = st.count + 1 := by
  simp only [process_line] at h
  split at h
  · simp only [Except.ok.injEq] at h
    subst h; rfl
  · split at h
    · split at h
      · simp only [Except.ok.injEq] at h
        subst h; rfl
      · simp at h
    · simp at h

/-- A successful run counts one per line processed. -/
theorem goLines_count (env : Env) :
    ∀ (rows : List Row) (st stF : LineSt),
      goLines env st rows = .ok stF → stF.count = st.count + rows.length := by
  intro rows
  induction rows with
  | nil =>
    intro st stF h
    simp only [goLines, Except.ok.injEq] at h
    subst h; rfl
  | cons r rs ih =>
    intro st stF h
    simp only [goLines] at h
    split at h
    · rename_i st2 h2
      have := ih st2 stF h
      have := process_line_ok_count env st r st2 h2
      simp only [List.length_cons]
      omega
    · simp at h

/-- C9: the row count reported in the statistics counts every data line
read, not only the successfully applied ones: in warn-on-error mode a line
whose row processing fails with a catchable error (ValidationError,
IntegrityError or UserDataError) still completes with count incremented by
one; every completed line increments count by exactly one; and a completed
run reports count equal to the initial count plus the number of lines. -/
theorem count_counts_all_lines (env : Env) (st : LineSt) (row : Row)
    (hwarn : env.warnOnError = true) :
    (∀ e runE, process_row env st.run row = .error (e, runE) → e.catchable = true →
      ∃ st2, process_line env st row = .ok st2 ∧ st2.count = st.count + 1)
  ∧ (∀ st2, process_line env st row = .ok st2 → st2.count = st.count + 1)
  ∧ ∀ (rows : List Row) (st3 stF : LineSt),
      goLines env st3 rows = .ok stF → stF.count = st3.count + rows.length := by
  refine ⟨?_, fun st2 h => process_line_ok_count env st row st2 h,
    fun rows st3 stF h => goLines_count env rows st3 stF h⟩
  intro e runE h hc
  have hex : ∃ st2, process_line env st row = .ok st2 := by
    simp only [process_line]
    rw [h]
    simp [hc, hwarn]
  obtain ⟨st2, h2⟩ := hex
  exact ⟨st2, h2, process_line_ok_count env st row st2 h2⟩

/-- Witness for C9: a concrete warn-mode line failing validation. -/
theorem count_counts_all_lines_w :
    ∃ st2,
      process_line
        ⟨false, true, [], fun e => if e.get "x" == "bad" then some "invalid x" else none⟩
        (initLineSt []) [("m", [("natural", "n"), ("x", "bad")])] = .ok st2
      ∧ st2.count = (initLineSt []).count + 1 :=
  (count_counts_all_lines
    ⟨false, true, [], fun e => if e.get "x" == "bad" then some "invalid x" else none⟩
    (initLineSt []) [("m", [("natural", "n"), ("x", "bad")])] rfl).1
    (.validation "invalid x")
    ⟨[], 0, [("m", 1)], [], []⟩ rfl rfl

/-- The first component of compare is the consistency of its diff. -/
theorem compare_fst_eq (obj : Entity) (fr : Assoc) :
    (obj.compare fr).1 = ((obj.compare fr).2).all (fun k => obj.get k == "") := rfl

/-- Unfolding of account for an existing entity with a proposed-value
dict. -/
theorem account_existing (env : Env) (st : RunSt) (obj : Entity) (fr : Assoc) :
    account env st obj false (some fr) =
      (if (obj.compare fr).2.isEmpty then .ok st
       else
        let st1 :=
          if (obj.compare fr).1 then { st with added := cInc st.added obj.model }
          else { st with changed := st.changed ++
              [(obj.model, obj,
                (obj.compare fr).2.map (fun i => (i, obj.get i, aGetD fr i "")))] }
        if (obj.compare fr).1 || env.canOverwrite then
          match env.valid (obj.setAll fr) with
          | some m => .error (.validation m, st1)
          | none => .ok (saveExisting st1 (obj.setAll fr))
        else .ok st1) := rfl

/-- C1: reconciling an existing entity against a non-empty proposed-value
dict.  If some field differs and every differing field's current value is
empty, the addition counter of the entity's type is bumped and the
proposed values are applied (validated and saved) whatever the overwrite
flag says; if some differing field currently holds a non-empty value, a
conflicting-change record with the (field, old, new) triples is appended
and the values are applied exactly when the overwrite flag is enabled; if
no field differs, the state is returned untouched. -/
theorem account_classifies_and_applies (env : Env) (st : RunSt) (obj : Entity)
    (fr : Assoc) (_hfr : fr ≠ []) :
    ((obj.compare fr).2 ≠ [] → (∀ k ∈ (obj.compare fr).2, obj.get k = "") →
      env.valid (obj.setAll fr) = none →
      account env st obj false (some fr) =
        .ok (saveExisting { st with added := cInc st.added obj.model } (obj.setAll fr)))
  ∧ ((∃ k ∈ (obj.compare fr).2, obj.get k ≠ "") →
      env.valid (obj.setAll fr) = none →
      account env st obj false (some fr) =
        (if env.canOverwrite then
          .ok (saveExisting
            { st with changed := st.changed ++
                [(obj.model, obj,
                  (obj.compare fr).2.map (fun i => (i, obj.get i, aGetD fr i "")))] }
            (obj.setAll fr))
         else
          .ok { st with changed := st.changed ++
              [(obj.model, obj,
                (obj.compare fr).2.map (fun i => (i, obj.get i, aGetD fr i "")))] }))
  ∧ ((obj.compare fr).2 = [] → account env st obj false (some fr) = .ok st) := by
  refine ⟨?_, ?_, ?_⟩
  · intro hne hempty hval
    have hisempty : (obj.compare fr).2.isEmpty = false := by
      cases hD : (obj.compare fr).2 with
      | nil => exact absurd hD hne
      | cons a l => rfl
    have hcons : (obj.compare fr).1 = true := by
      rw [compare_fst_eq]
      exact List.all_eq_true.mpr (fun k hk => beq_iff_eq.mpr (hempty k hk))
    rw [account_existing, hisempty, hcons, hval]
    simp
  · intro hconf hval
    obtain ⟨k, hk, hkne⟩ := hconf
    have hisempty : (obj.compare fr).2.isEmpty = false := by
      cases hD : (obj.compare fr).2 with
      | nil => rw [hD] at hk; exact absurd hk (List.not_mem_nil k)
      | cons a l => rfl
    have hcons : (obj.compare fr).1 = false := by
      rw [compare_fst_eq]
      refine List.all_eq_false.mpr ⟨k, hk, ?_⟩
      simp only [beq_iff_eq]
      exact hkne
    rw [account_existing, hisempty, hcons, hval]
    cases hov : env.canOverwrite <;> simp
  · intro hnil
    have hisempty : (obj.compare fr).2.isEmpty = true := by
      rw [hnil]; rfl
    rw [account_existing, hisempty]
    simp

/-- Witness for C1: a concrete consistent addition (field currently empty,
value applied with overwrite disabled). -/
theorem account_classifies_and_applies_w :
    account ⟨false, false, [], fun _ => none⟩ ⟨[⟨some 0, "m", [("x", "")]⟩], 1, [], [], []⟩
        ⟨some 0, "m", [("x", "")]⟩ false (some [("x", "v")]) =
      .ok (saveExisting
        { (⟨[⟨some 0, "m", [("x", "")]⟩], 1, [], [], []⟩ : RunSt) with
            added := cInc ([] : List (String × Nat)) "m" }
        (Entity.setAll ⟨some 0, "m", [("x", "")]⟩ [("x", "v")])) :=
  (account_classifies_and_applies ⟨false, false, [], fun _ => none⟩
    ⟨[⟨some 0, "m", [("x", "")]⟩], 1, [], [], []⟩ ⟨some 0, "m", [("x", "")]⟩
    [("x", "v")] (by decide)).1 (by decide) (by decide) rfl

/-- C6: a row whose identifying key set matches more than one stored entity
makes process_step fail with the ambiguity error, raised as a
UserDataError (the spec's AmbiguousLookupError) and hence catchable; and
whenever row processing fails with a catchable error, process_line leaves
the store exactly as it was before the line — in warn mode the line is
skipped (the run continues), otherwise the error is re-raised — so no
partial write from the row survives. -/
theorem ambiguous_lookup_fails_no_partial_writes (env : Env) (st : RunSt) (s : Step)
    (hmulti : 2 ≤ (lookupEntities st.store s.1 (effIdArg s.2)).length) :
    process_step env st s = .error (.userData (ambigMsg (effIdArg s.2) s.1), st)
  ∧ (LoadErr.userData (ambigMsg (effIdArg s.2) s.1)).catchable = true
  ∧ ∀ (lst : LineSt) (row : Row) (e : LoadErr) (runE : RunSt),
      process_row env lst.run row = .error (e, runE) → e.catchable = true →
      ((env.warnOnError = true →
        ∃ lst2, process_line env lst row = .ok lst2 ∧ lst2.run.store = lst.run.store)
      ∧ (env.warnOnError = false →
        ∃ e2 lst2, process_line env lst row = .error (e2, lst2)
          ∧ lst2.run.store = lst.run.store)) := by
  refine ⟨?_, rfl, ?_⟩
  · simp only [process_step]
    cases hl : lookupEntities st.store s.1 (effIdArg s.2) with
    | nil => rw [hl] at hmulti; simp at hmulti
    | cons a t =>
      cases t with
      | nil => rw [hl] at hmulti; simp at hmulti
      | cons b u => rfl
  · intro lst row e runE h hc
    constructor
    · intro hw
      have hex : ∃ lst2, process_line env lst row = .ok lst2
          ∧ lst2.run.store = lst.run.store := by
        simp only [process_line]
        rw [h]
        simp [hc, hw]
      exact hex
    · intro hw
      have hex : ∃ e2 lst2, process_line env lst row = .error (e2, lst2)
          ∧ lst2.run.store = lst.run.store := by
        simp only [process_line]
        rw [h]
        simp only [hc, hw, Bool.false_eq_true, if_false, if_true, Except.error.injEq,
          Prod.mk.injEq]
        exact ⟨_, _, ⟨rfl, rfl⟩, rfl⟩
      exact hex

/-- Witness for C6: a store holding two entities of model "m" with the same
natural key, looked up by a row step identifying only that key. -/
theorem ambiguous_lookup_fails_no_partial_writes_w :
    process_step ⟨false, false, [], fun _ => none⟩
        ⟨[⟨some 0, "m", [("natural", "n")]⟩, ⟨some 1, "m", [("natural", "n")]⟩],
          2, [], [], []⟩
        ("m", [("natural", "n")]) =
      .error (.userData (ambigMsg (effIdArg [("natural", "n")]) "m"),
        ⟨[⟨some 0, "m", [("natural", "n")]⟩, ⟨some 1, "m", [("natural", "n")]⟩],
          2, [], [], []⟩) :=
  (ambiguous_lookup_fails_no_partial_writes ⟨false, false, [], fun _ => none⟩
    ⟨[⟨some 0, "m", [("natural", "n")]⟩, ⟨some 1, "m", [("natural", "n")]⟩],
      2, [], [], []⟩
    ("m", [("natural", "n")]) (by decide)).1

/-- Counterexample to C4 as stated: five consecutive lines all failing with
the identical message 'invalid x', followed by one line failing with
'invalid y', put TWO entries into the reported warnings list — the main
entry for line 2 and the '(and for next 4 lines)' continuation — not one;
and the pending 'invalid y' warning is not in the report at all. -/
theorem five_identical_errors_two_entries :
    ((process_file
        ⟨false, true, [], fun e =>
          if e.get "x" == "bad" then some "invalid x"
          else if e.get "y" == "bad" then some "invalid y" else none⟩
        false []
        [[("m", [("natural", "n"), ("x", "bad")])],
         [("m", [("natural", "n"), ("x", "bad")])],
         [("m", [("natural", "n"), ("x", "bad")])],
         [("m", [("natural", "n"), ("x", "bad")])],
         [("m", [("natural", "n"), ("x", "bad")])],
         [("m", [("natural", "n"), ("y", "bad")])]]).1.toOption.map
      (fun s => s.warnings))
    = some ["skipping row: at line 2: invalid x (ValidationError)",
            "    (and for next 4 lines)"] := by
  rfl

/-- Feeding warnings over a concatenation composes. -/
theorem feedWarnings_append (a b : List (String × String × Nat))
    (st : List String × Option (String × String × Nat × Nat)) :
    feedWarnings st (a ++ b) = feedWarnings (feedWarnings st a) b := by
  induction a generalizing st with
  | nil => rfl
  | cons x t ih =>
    obtain ⟨en, m, l⟩ := x
    simp only [List.cons_append, feedWarnings]
    exact ih _

/-- Identical consecutive warnings only widen the pending span. -/
theorem feedWarnings_sameRun (en m : String) (ws : List String) (l0 : Nat) :
    ∀ (k l : Nat), feedWarnings (ws, some (en, m, l0, l)) (sameRun en m (l + 1) k)
      = (ws, some (en, m, l0, l + k)) := by
  intro k
  induction k with
  | zero => intro l; simp [sameRun, feedWarnings]
  | succ k ih =>
    intro l
    simp only [sameRun, feedWarnings, noteWarning, beq_self_eq_true, Bool.and_self,
      if_pos]
    rw [show l + (k + 1) = (l + 1) + k by omega]
    exact ih (l + 1)

/-- C4 (amended): in warn mode, a maximal run of n+1 consecutive lines
failing with the identical message, followed by a line failing with a
different message, is reported as exactly one main warning entry naming
the first line, message and error kind — plus, when the run spans more
than one line, one continuation entry noting the n further lines (so two
entries for a five-line run, not five and not one); the differing error
becomes the new pending warning and is itself only emitted once a later
non-matching warning arrives. -/
theorem warning_runs_coalesce (en m en2 m2 : String) (ws : List String) (l0 n : Nat)
    (hne : m2 ≠ m) :
    feedWarnings (ws, none) (sameRun en m l0 (n + 1) ++ [(en2, m2, l0 + n + 1)]) =
      (ws ++ ["skipping row: at line " ++ toString l0 ++ ": " ++ m ++ " (" ++ en ++ ")"]
          ++ (if n = 0 then [] else ["    (and for next " ++ toString n ++ " lines)"]),
       some (en2, m2, l0 + n + 1, l0 + n + 1)) := by
  rw [feedWarnings_append]
  have h1 : feedWarnings (ws, none) (sameRun en m l0 (n + 1))
      = (ws, some (en, m, l0, l0 + n)) := by
    simp only [sameRun, feedWarnings, noteWarning]
    exact feedWarnings_sameRun en m ws l0 n l0
  rw [h1]
  simp only [feedWarnings, noteWarning]
  have hbeq : (m2 == m) = false := by
    simp only [beq_eq_false_iff_ne, ne_eq]
    exact hne
  rw [hbeq]
  simp only [Bool.false_and, Bool.false_eq_true, if_false]
  by_cases hn : n = 0
  · subst hn
    simp
  · have hlb : (l0 + n != l0) = true := by
      simp only [bne_iff_ne, ne_eq]
      omega
    rw [hlb]
    simp only [if_true, Nat.add_sub_cancel_left]
    simp [hn, List.append_assoc]

/-- Witness for C4 (amended): five identical errors on lines 2-6, then a
differing one on line 7. -/
theorem warning_runs_coalesce_w :
    feedWarnings ([], none)
        (sameRun "ValidationError" "invalid x" 2 5 ++ [("ValidationError", "invalid y", 7)]) =
      (["skipping row: at line 2: invalid x (ValidationError)",
        "    (and for next 4 lines)"],
       some ("ValidationError", "invalid y", 7, 7)) := by
  have h := warning_runs_coalesce "ValidationError" "invalid x" "ValidationError"
    "invalid y" [] 2 4 (by decide)
  simpa using h

/-- Key membership after a Python dict assignment. -/
theorem mem_aSet_key (l : Assoc) (a b k : String) :
    (∃ v, (k, v) ∈ aSet l a b) ↔ k = a ∨ ∃ v, (k, v) ∈ l := by
  induction l with
  | nil => simp [aSet]
  | cons kv t ih =>
    obtain ⟨k1, v1⟩ := kv
    by_cases h : k1 = a
    · subst h
      simp [aSet, List.mem_cons, Prod.mk.injEq, exists_or]
    · have hbeq : (k1 == a) = false := by simp [h]
      simp [aSet, hbeq, List.mem_cons, Prod.mk.injEq, exists_or, ih]
      tauto

/-- Key membership in a Python dict built from a pair list, generalised
over the fold seed. -/
theorem mem_foldl_aSet (k : String) (l : Assoc) :
    ∀ (d : Assoc), (∃ v, (k, v) ∈ l.foldl (fun d kv => aSet d kv.1 kv.2) d)
      ↔ (∃ v, (k, v) ∈ d) ∨ (∃ v, (k, v) ∈ l) := by
  induction l with
  | nil => simp
  | cons kv t ih =>
    intro d
    obtain ⟨k1, v1⟩ := kv
    simp only [List.foldl_cons]
    rw [ih (aSet d k1 v1)]
    rw [mem_aSet_key]
    simp [List.mem_cons, Prod.mk.injEq, exists_or]
    tauto

/-- A Python dict has the same keys as the pair list it was built from. -/
theorem mem_pyDict_key (k : String) (l : Assoc) :
    (∃ v, (k, v) ∈ pyDictOf l) ↔ ∃ v, (k, v) ∈ l := by
  unfold pyDictOf
  rw [mem_foldl_aSet]
  simp

/-- Membership in a zip is membership of both components at one shared
position. -/
theorem mem_zip_iff {α β : Type} (l1 : List α) (l2 : List β) (a : α) (b : β) :
    (a, b) ∈ l1.zip l2 ↔ ∃ i : Nat, l1[i]? = some a ∧ l2[i]? = some b := by
  induction l1 generalizing l2 with
  | nil => simp
  | cons x t ih =>
    cases l2 with
    | nil => simp
    | cons y u =>
      simp only [List.zip_cons_cons, List.mem_cons, Prod.mk.injEq, ih]
      constructor
      · rintro (⟨rfl, rfl⟩ | ⟨i, h1, h2⟩)
        · exact ⟨0, by simp, by simp⟩
        · exact ⟨i + 1, by simpa using h1, by simpa using h2⟩
      · rintro ⟨i, h1, h2⟩
        cases i with
        | zero =>
          simp only [List.getElem?_cons_zero, Option.some.injEq] at h1 h2
          exact Or.inl ⟨h1.symm, h2.symm⟩
        | succ i =>
          exact Or.inr ⟨i, by simpa using h1, by simpa using h2⟩

/-- The per-column names built by the constructor: the matched internal
name, or the input header itself when unmatched. -/
theorem loaderCols_fst (COLS : List (String × String)) (cs : List String) :
    (loaderCols COLS cs).1 = cs.map (fun c => (lookupCol COLS c).getD c) := by
  induction cs with
  | nil => rfl
  | cons c rest ih =>
    simp only [loaderCols, List.map_cons]
    cases h : lookupCol COLS c <;> simp [h, ih]

/-- The ignored columns are exactly the unmatched input headers, in
order. -/
theorem loaderCols_snd (COLS : List (String × String)) (cs : List String) :
    (loaderCols COLS cs).2 = cs.filter (fun c => (lookupCol COLS c).isNone) := by
  induction cs with
  | nil => rfl
  | cons c rest ih =>
    simp only [loaderCols, List.filter_cons]
    cases h : lookupCol COLS c <;> simp [h, ih]

/-- A successful header match always yields one of the declared internal
names. -/
theorem lookupCol_mem_valid (COLS : List (String × String)) (c k : String)
    (h : lookupCol COLS c = some k) : k ∈ COLS.map (fun hk => hk.2) := by
  unfold lookupCol aGet? at h
  cases hf : ((COLS.map (fun hk => (casefold hk.1, hk.2))).reverse).find?
      (fun kv => kv.1 == casefold c) with
  | none => rw [hf] at h; simp at h
  | some kv =>
    rw [hf] at h
    simp only [Option.map_some', Option.some.injEq] at h
    have hm := List.mem_of_find?_eq_some hf
    rw [List.mem_reverse] at hm
    obtain ⟨p, hp, hpe⟩ := List.mem_map.mp hm
    refine List.mem_map.mpr ⟨p, hp, ?_⟩
    rw [← h, ← hpe]

/-- Counterexample to C7 as stated: the Column Spec maps header 'A' to
internal name 'b'; the input header 'b' does not match any declared header
(case-folded 'b' is not 'a'), so it is an ignored column — yet because the
pass-through name 'b' coincides with the internal semantic key 'b', the
ignored column's value 'v' DOES appear in the normalized row. -/
theorem ignored_header_value_leaks :
    (loaderCols [("A", "b")] ["b"]).2 = ["b"]
  ∧ normalizedRow [("A", "b")] (loaderCols [("A", "b")] ["b"]).1 [.lit ""]
      (fun v => v) ["v"] = [("b", "v")] := ⟨rfl, rfl⟩

/-- C7 (amended): input headers are matched to Column Spec headers by
case-folded equality; every unmatched header is accepted and listed, in
input order, among the ignored columns; and — provided no unmatched header
name coincides with one of the Spec's internal semantic keys — the
normalized row of any data line carries exactly the internal keys of
matched columns whose value passes the non-empty test (so the values of
ignored columns never appear). -/
theorem headers_casefolded_unmatched_tolerated (COLS : List (String × String))
    (colnames fields : List String) (md : List MissingSpec) (db : String → String)
    (hclash : ∀ c ∈ colnames, lookupCol COLS c = none → ¬ c ∈ COLS.map (fun hk => hk.2)) :
    (loaderCols COLS colnames).2 = colnames.filter (fun c => (lookupCol COLS c).isNone)
  ∧ ∀ k, (∃ v, (k, v) ∈ normalizedRow COLS (loaderCols COLS colnames).1 md db fields)
      ↔ ∃ (i : Nat) (c v : String), colnames[i]? = some c ∧ fields[i]? = some v
          ∧ lookupCol COLS c = some k ∧ non_empty md db v = true := by
  refine ⟨loaderCols_snd COLS colnames, ?_⟩
  intro k
  simp only [normalizedRow]
  rw [mem_pyDict_key]
  constructor
  · rintro ⟨v, hv⟩
    rw [List.mem_filter] at hv
    obtain ⟨hz, hp⟩ := hv
    rw [loaderCols_fst] at hz
    rw [mem_zip_iff] at hz
    obtain ⟨i, h1, h2⟩ := hz
    rw [List.getElem?_map] at h1
    cases hcn : colnames[i]? with
    | none => rw [hcn] at h1; simp at h1
    | some c =>
      rw [hcn] at h1
      simp only [Option.map_some', Option.some.injEq] at h1
      rw [Bool.and_eq_true] at hp
      cases hlc : lookupCol COLS c with
      | some j =>
        have hj : j = k := by rw [hlc] at h1; simpa using h1
        subst hj
        exact ⟨i, c, v, hcn, h2, hlc, hp.1⟩
      | none =>
        exfalso
        have hck : c = k := by rw [hlc] at h1; simpa using h1
        subst hck
        have hmem : c ∈ colnames := List.getElem?_mem hcn
        exact hclash c hmem hlc (by simpa using hp.2)
  · rintro ⟨i, c, v, hcn, hf, hlc, hne⟩
    refine ⟨v, ?_⟩
    rw [List.mem_filter]
    refine ⟨?_, ?_⟩
    · rw [loaderCols_fst, mem_zip_iff]
      exact ⟨i, by rw [List.getElem?_map, hcn]; simp [hlc], hf⟩
    · rw [Bool.and_eq_true]
      exact ⟨hne, by simpa using lookupCol_mem_valid COLS c k hlc⟩

/-- Witness for C7 (amended): one matched and one unmatched header with no
name clash; the matched column's non-empty value is exposed under its
internal key. -/
theorem headers_casefolded_unmatched_tolerated_w :
    (loaderCols [("FASTQ_ID", "fq_file_id")] ["fastq_id", "foo"]).2 = ["foo"]
  ∧ (∃ v, ("fq_file_id", v) ∈ normalizedRow [("FASTQ_ID", "fq_file_id")]
      (loaderCols [("FASTQ_ID", "fq_file_id")] ["fastq_id", "foo"]).1 [.lit ""]
      (fun v => v) ["x1", "x2"]) := by
  have h := headers_casefolded_unmatched_tolerated [("FASTQ_ID", "fq_file_id")]
    ["fastq_id", "foo"] ["x1", "x2"] [.lit ""] (fun v => v) (by decide)
  refine ⟨h.1.trans (by decide), ?_⟩
  exact ((h.2 "fq_file_id").mpr ⟨0, "fastq_id", "x1", rfl, rfl, by decide, by decide⟩)

/-- Counterexample to C5 as stated: the input file is well-formed (a single
row keyed natural='n', so no duplicate natural keys) and both runs succeed,
but the store already holds the entity with a conflicting value x='v1'
against the proposed x='v2'.  With overwrite disabled the first run records
the conflict and does not apply it, so the second run finds the same
conflict and reports a non-empty conflicting-change list — the pair of runs
is not idempotent in the claimed sense.  (The first conjunct confirms run
one succeeded and also created nothing.) -/
theorem second_run_repeats_conflict :
    ((process_file ⟨false, false, [], fun _ => none⟩ false
        [⟨some 0, "m", [("natural", "n"), ("x", "v1")]⟩]
        [[("m", [("natural", "n"), ("x", "v2")])]]).1.toOption.map
      (fun s => (s.count, s.new))) = some (1, [])
  ∧ ((process_file ⟨false, false, [], fun _ => none⟩ false
        ((process_file ⟨false, false, [], fun _ => none⟩ false
            [⟨some 0, "m", [("natural", "n"), ("x", "v1")]⟩]
            [[("m", [("natural", "n"), ("x", "v2")])]]).2)
        [[("m", [("natural", "n"), ("x", "v2")])]]).1.toOption.map
      (fun s => s.changed))
    = some [("m", ⟨some 0, "m", [("natural", "n"), ("x", "v1")]⟩, [("x", "v1", "v2")])] := by
  exact ⟨rfl, rfl⟩

/-- A pair list whose key projection is a one-element list is a one-pair
list. -/
theorem map_fst_eq_singleton {l : Assoc} {a : String}
    (h : l.map (fun kv => kv.1) = [a]) : ∃ b, l = [(a, b)] := by
  cases l with
  | nil => simp at h
  | cons kv t =>
    cases t with
    | nil =>
      obtain ⟨k1, v1⟩ := kv
      simp only [List.map_cons, List.map_nil, List.cons.injEq, and_true] at h
      exact ⟨v1, by rw [h]⟩
    | cons kv2 t2 => simp at h

/-- An absent key means no pair carries it. -/
theorem aGet?_eq_none_not_mem {l : Assoc} {k : String}
    (h : aGet? l k = none) : ∀ v, (k, v) ∉ l := by
  intro v hv
  unfold aGet? at h
  rw [Option.map_eq_none'] at h
  have := List.find?_eq_none.mp h (k, v) hv
  simp at this

/-- With unique keys, lookup finds the value of any member pair. -/
theorem aGet?_of_mem_nodup {l : Assoc} {k v : String}
    (hnd : (l.map (fun kv => kv.1)).Nodup) (hm : (k, v) ∈ l) :
    aGet? l k = some v := by
  induction l with
  | nil => simp at hm
  | cons kv t ih =>
    obtain ⟨k1, v1⟩ := kv
    simp only [List.map_cons, List.nodup_cons] at hnd
    rcases List.mem_cons.mp hm with he | hmem
    · obtain ⟨rfl, rfl⟩ := Prod.mk.injEq .. ▸ he
      simp [aGet?]
    · have hk1 : k1 ≠ k := by
        intro he2
        subst he2
        exact hnd.1 (List.mem_map_of_mem (fun kv => kv.1) hmem)
      have hbeq : (k1 == k) = false := by simp [hk1]
      simp only [aGet?, List.find?_cons, hbeq]
      exact ih hnd.2 hmem

/-- The saved entity of a step reads its natural key back. -/
theorem savedEntity_get (t : Step) (i : Nat) (nt : String)
    (hidt : effIdArg t.2 = [("natural", nt)]) :
    (savedEntity i t).get "natural" = nt := by
  simp only [savedEntity, mkNewEntity, Entity.get]
  rw [hidt]
  rfl

/-- The saved entity of a step reads every data field back, given the
step's well-formedness. -/
theorem savedEntity_get_data (t : Step) (i : Nat) (nt k v : String)
    (hidt : effIdArg t.2 = [("natural", nt)])
    (hno : aGet? (effData t.2) "natural" = none)
    (hnd : ((effData t.2).map (fun kv => kv.1)).Nodup)
    (hkv : (k, v) ∈ effData t.2) :
    (savedEntity i t).get k = v := by
  have hkn : ("natural" : String) ≠ k := by
    intro he
    subst he
    exact aGet?_eq_none_not_mem hno v hkv
  have hbeq : (("natural" : String) == k) = false := by simp [hkn]
  simp only [savedEntity, mkNewEntity, Entity.get]
  rw [hidt]
  simp only [List.singleton_append, aGetD, aGet?, List.find?_cons, hbeq]
  have := aGet?_of_mem_nodup hnd hkv
  unfold aGet? at this
  rw [this]
  rfl

/-- The step key under the singleton natural-key shape. -/
theorem stepKey_eq (t : Step) (nt : String)
    (hidt : effIdArg t.2 = [("natural", nt)]) : stepKey t = (t.1, nt) := by
  unfold stepKey
  rw [hidt]
  rfl

/-- The lookup predicate on a saved entity compares model names and
natural-key values. -/
theorem saved_pred_eq (i : Nat) (t s : Step) (n nt : String)
    (hids : effIdArg s.2 = [("natural", n)])
    (hidt : effIdArg t.2 = [("natural", nt)]) :
    ((savedEntity i t).model == s.1
      && (effIdArg s.2).all (fun kv => (savedEntity i t).get kv.1 == kv.2))
    = ((t.1 == s.1) && (nt == n)) := by
  rw [hids]
  have h1 : (savedEntity i t).get "natural" = nt := savedEntity_get t i nt hidt
  have h2 : (savedEntity i t).model = t.1 := rfl
  simp [List.all_cons, List.all_nil, h1, h2]

/-- Appending one created step to the store built from a step list. -/
theorem storeOf_append (a : List Step) (s : Step) :
    ∀ i0, storeOf i0 (a ++ [s]) = storeOf i0 a ++ [savedEntity (i0 + a.length) s] := by
  induction a with
  | nil => intro i0; simp [storeOf]
  | cons t rest ih =>
    intro i0
    simp only [List.cons_append, storeOf, List.length_cons, List.append_eq]
    rw [ih (i0 + 1)]
    have he : i0 + 1 + rest.length = i0 + (rest.length + 1) := by omega
    rw [he]

/-- One store cell against the lookup: keep or skip. -/
theorem lookupEntities_cons (e : Entity) (st : Store) (m : String) (idArg : Assoc) :
    lookupEntities (e :: st) m idArg =
      if (e.model == m && idArg.all (fun kv => e.get kv.1 == kv.2)) then
        e :: lookupEntities st m idArg
      else lookupEntities st m idArg := by
  simp [lookupEntities, List.filter_cons]

/-- A saved entity of a step with a different key never matches the
lookup. -/
theorem saved_pred_false (i0 : Nat) (t s : Step) (n nt : String)
    (hids : effIdArg s.2 = [("natural", n)])
    (hidt : effIdArg t.2 = [("natural", nt)])
    (hkey : stepKey t ≠ stepKey s) :
    ((savedEntity i0 t).model == s.1
      && (effIdArg s.2).all (fun kv => (savedEntity i0 t).get kv.1 == kv.2)) = false := by
  rw [saved_pred_eq i0 t s n nt hids hidt]
  rw [stepKey_eq t nt hidt, stepKey_eq s n hids] at hkey
  by_cases h1 : t.1 = s.1
  · by_cases h2 : nt = n
    · exact absurd (by rw [h1, h2]) hkey
    · simp [h2]
  · simp [h1]

/-- A step whose key is absent from a step list matches nothing in the
store built from that list. -/
theorem lookup_storeOf_not_mem (env : Env) (s : Step) (n : String)
    (hid : effIdArg s.2 = [("natural", n)]) :
    ∀ (steps : List Step) (i0 : Nat), (∀ t ∈ steps, StepOK env t) →
      stepKey s ∉ steps.map stepKey →
      lookupEntities (storeOf i0 steps) s.1 (effIdArg s.2) = [] := by
  intro steps
  induction steps with
  | nil => intro i0 _ _; rfl
  | cons t rest ih =>
    intro i0 hok hnot
    have hts : StepOK env t := hok t (List.mem_cons_self t rest)
    obtain ⟨nt, hidt⟩ := map_fst_eq_singleton hts.1
    have hkey : stepKey t ≠ stepKey s := by
      intro he
      exact hnot (he ▸ List.mem_map_of_mem stepKey (List.mem_cons_self t rest))
    simp only [storeOf]
    rw [lookupEntities_cons, saved_pred_false i0 t s n nt hid hidt hkey]
    simp only [Bool.false_eq_true, if_false]
    exact ih (i0 + 1) (fun u hu => hok u (List.mem_cons_of_mem t hu))
      (fun hm => hnot (List.mem_cons_of_mem _ hm))

/-- A member step with a unique key matches exactly its own saved entity in
the store built from the full step list. -/
theorem lookup_storeOf_self (env : Env) (s : Step) (n : String)
    (hid : effIdArg s.2 = [("natural", n)]) :
    ∀ (steps : List Step) (i0 : Nat), (∀ t ∈ steps, StepOK env t) →
      (steps.map stepKey).Nodup → s ∈ steps →
      ∃ j, lookupEntities (storeOf i0 steps) s.1 (effIdArg s.2) = [savedEntity j s] := by
  intro steps
  induction steps with
  | nil => intro i0 _ _ h; simp at h
  | cons t rest ih =>
    intro i0 hok hnd hmem
    have hts : StepOK env t := hok t (List.mem_cons_self t rest)
    obtain ⟨nt, hidt⟩ := map_fst_eq_singleton hts.1
    simp only [List.map_cons, List.nodup_cons] at hnd
    rcases List.mem_cons.mp hmem with rfl | hmem2
    · have hnn : nt = n := by
        rw [hid] at hidt
        simpa using hidt.symm
      subst hnn
      have hpred : ((savedEntity i0 s).model == s.1
          && (effIdArg s.2).all (fun kv => (savedEntity i0 s).get kv.1 == kv.2)) = true := by
        rw [saved_pred_eq i0 s s nt nt hid hid]
        simp
      have htail : lookupEntities (storeOf (i0 + 1) rest) s.1 (effIdArg s.2) = [] := by
        refine lookup_storeOf_not_mem env s nt hid rest (i0 + 1)
          (fun u hu => hok u (List.mem_cons_of_mem s hu)) ?_
        rw [stepKey_eq s nt hid] at hnd ⊢
        exact hnd.1
      refine ⟨i0, ?_⟩
      simp only [storeOf]
      rw [lookupEntities_cons, hpred, if_pos rfl, htail]
    · have hkey : stepKey t ≠ stepKey s := by
        intro he
        exact hnd.1 (he ▸ List.mem_map_of_mem stepKey hmem2)
      simp only [storeOf]
      rw [lookupEntities_cons, saved_pred_false i0 t s n nt hid hidt hkey]
      simp only [Bool.false_eq_true, if_false]
      exact ih (i0 + 1) (fun u hu => hok u (List.mem_cons_of_mem t hu)) hnd.2 hmem2

/-- compare reports no diff when the entity already carries every proposed
value. -/
theorem compare_self_nil (e : Entity) (fr : Assoc)
    (h : ∀ kv ∈ fr, e.get kv.1 = kv.2) : (e.compare fr).2 = [] := by
  have hf : fr.filter (fun kv => e.get kv.1 != kv.2) = [] := by
    rw [List.filter_eq_nil_iff]
    intro kv hkv
    simp [h kv hkv]
  simp [Entity.compare, hf]

/-- account is a no-op on an existing entity with no differing field. -/
theorem account_existing_noop (env : Env) (st : RunSt) (e : Entity) (fr : Assoc)
    (h : (e.compare fr).2 = []) : account env st e false (some fr) = .ok st := by
  rw [account_existing, h]
  rfl

/-- Reconciling a well-formed step against its own saved entity changes
nothing. -/
theorem process_step_self_noop (env : Env) (st : RunSt) (s : Step) (j : Nat)
    (hok : StepOK env s)
    (hlk : lookupEntities st.store s.1 (effIdArg s.2) = [savedEntity j s]) :
    process_step env st s = .ok st := by
  obtain ⟨n, hid⟩ := map_fst_eq_singleton hok.1
  simp only [process_step]
  rw [hlk]
  apply account_existing_noop
  apply compare_self_nil
  intro kv hkv
  obtain ⟨k, v⟩ := kv
  exact savedEntity_get_data s j n k v hid hok.2.1 hok.2.2.1 hkv

/-- Reconciling a whole row of already-loaded steps against the full store
leaves the run state untouched. -/
theorem process_row_noop (env : Env) (all : List Step)
    (hokall : ∀ t ∈ all, StepOK env t) (hnd : (all.map stepKey).Nodup) :
    ∀ (todo : List Step) (st : RunSt), (∀ t ∈ todo, t ∈ all) →
      st.store = storeOf 0 all → process_row env st todo = .ok st := by
  intro todo
  induction todo with
  | nil => intro st _ _; rfl
  | cons s rest ih =>
    intro st hsub hst
    have hsok := hokall s (hsub s (List.mem_cons_self s rest))
    obtain ⟨n, hid⟩ := map_fst_eq_singleton hsok.1
    obtain ⟨j, hlk⟩ := lookup_storeOf_self env s n hid all 0 hokall hnd
      (hsub s (List.mem_cons_self s rest))
    have hstep : process_step env st s = .ok st :=
      process_step_self_noop env st s j hsok (by rw [hst]; exact hlk)
    simp only [process_row]
    rw [hstep]
    exact ih st (fun t ht => hsub t (List.mem_cons_of_mem s ht)) hst

/-- Creating a fresh step: the lookup finds nothing, the new counter is
bumped, the validated entity is saved under the next free key. -/
theorem process_step_new (env : Env) (st : RunSt) (s : Step)
    (hok : StepOK env s)
    (hlk : lookupEntities st.store s.1 (effIdArg s.2) = []) :
    process_step env st s =
      .ok (saveNew { st with new := cInc st.new s.1 } (mkNewEntity s)) := by
  simp only [process_step]
  rw [hlk]
  show account env st (mkNewEntity s) true (some (effData s.2)) = _
  simp only [account]
  rw [hok.2.2.2]
  simp [mkNewEntity]

/-- Running fresh well-formed steps with pairwise-distinct keys creates
exactly their entities, in order. -/
theorem process_row_creates (env : Env) :
    ∀ (todo pre : List Step) (st : RunSt),
      (∀ t ∈ pre ++ todo, StepOK env t) →
      ((pre ++ todo).map stepKey).Nodup →
      st.store = storeOf 0 pre → st.nextId = pre.length →
      ∃ st2, process_row env st todo = .ok st2
        ∧ st2.store = storeOf 0 (pre ++ todo)
        ∧ st2.nextId = (pre ++ todo).length := by
  intro todo
  induction todo with
  | nil =>
    intro pre st _ _ hst hid
    exact ⟨st, rfl, by simpa using hst, by simpa using hid⟩
  | cons s rest ih =>
    intro pre st hok hnd hst hid
    have hsok : StepOK env s := hok s (by simp)
    obtain ⟨n, hidn⟩ := map_fst_eq_singleton hsok.1
    have hnot : stepKey s ∉ pre.map stepKey := by
      rw [List.map_append, List.nodup_append] at hnd
      intro hmem
      exact hnd.2.2 hmem (by simp)
    have hlk : lookupEntities st.store s.1 (effIdArg s.2) = [] := by
      rw [hst]
      exact lookup_storeOf_not_mem env s n hidn pre 0
        (fun t ht => hok t (by simp [ht])) hnot
    simp only [process_row]
    rw [process_step_new env st s hsok hlk]
    have hre : (pre ++ [s]) ++ rest = pre ++ s :: rest := by simp
    obtain ⟨st2, hrow, hst2, hid2⟩ := ih (pre ++ [s])
      (saveNew { st with new := cInc st.new s.1 } (mkNewEntity s))
      (by rw [hre]; exact hok) (by rw [hre]; exact hnd)
      (by
        simp only [saveNew]
        rw [hst, hid, storeOf_append pre s 0]
        simp [savedEntity])
      (by simp [saveNew, hid])
    refine ⟨st2, hrow, by rw [← hre]; exact hst2, by rw [← hre]; exact hid2⟩

/-- Driving fresh rows through the line loop creates exactly their steps'
entities. -/
theorem goLines_creates (env : Env) :
    ∀ (rows : List Row) (pre : List Step) (lst : LineSt),
      (∀ t ∈ pre ++ rows.flatten, StepOK env t) →
      ((pre ++ rows.flatten).map stepKey).Nodup →
      lst.run.store = storeOf 0 pre → lst.run.nextId = pre.length →
      ∃ lst2, goLines env lst rows = .ok lst2
        ∧ lst2.run.store = storeOf 0 (pre ++ rows.flatten)
        ∧ lst2.run.nextId = (pre ++ rows.flatten).length := by
  intro rows
  induction rows with
  | nil =>
    intro pre lst _ _ hst hid
    exact ⟨lst, rfl, by simpa using hst, by simpa using hid⟩
  | cons r rs ih =>
    intro pre lst hok hnd hst hid
    rw [List.flatten_cons, ← List.append_assoc] at hok hnd
    have hokr : ∀ t ∈ pre ++ r, StepOK env t := fun t ht =>
      hok t (List.mem_append_left _ ht)
    have hndr : ((pre ++ r).map stepKey).Nodup := by
      rw [List.map_append] at hnd
      exact hnd.of_append_left
    obtain ⟨st2, hrow, hst2, hid2⟩ := process_row_creates env r pre lst.run hokr hndr hst hid
    have hpl : process_line env lst r = .ok
        { run := st2, linenum := lst.linenum + 1, count := lst.count + 1,
          warnings := lst.warnings, lastWarning := lst.lastWarning } := by
      simp only [process_line]
      rw [hrow]
    obtain ⟨lst2, hgl, hst3, hid3⟩ := ih (pre ++ r)
      { run := st2, linenum := lst.linenum + 1, count := lst.count + 1,
        warnings := lst.warnings, lastWarning := lst.lastWarning }
      hok hnd hst2 hid2
    refine ⟨lst2, ?_, ?_, ?_⟩
    · simp only [goLines]
      rw [hpl]
      exact hgl
    · rw [List.flatten_cons, ← List.append_assoc]
      exact hst3
    · rw [List.flatten_cons, ← List.append_assoc]
      exact hid3

/-- Driving already-loaded rows through the line loop leaves the run state
and warnings untouched. -/
theorem goLines_noop (env : Env) (all : List Step)
    (hokall : ∀ t ∈ all, StepOK env t) (hnd : (all.map stepKey).Nodup) :
    ∀ (rows : List Row) (lst : LineSt), (∀ t ∈ rows.flatten, t ∈ all) →
      lst.run.store = storeOf 0 all →
      ∃ lst2, goLines env lst rows = .ok lst2 ∧ lst2.run = lst.run
        ∧ lst2.warnings = lst.warnings := by
  intro rows
  induction rows with
  | nil => intro lst _ _; exact ⟨lst, rfl, rfl, rfl⟩
  | cons r rs ih =>
    intro lst hsub hst
    have hpr : process_row env lst.run r = .ok lst.run :=
      process_row_noop env all hokall hnd r lst.run
        (fun t ht => hsub t (by rw [List.flatten_cons]; exact List.mem_append_left _ ht))
        hst
    have hpl : process_line env lst r = .ok
        { run := lst.run, linenum := lst.linenum + 1, count := lst.count + 1,
          warnings := lst.warnings, lastWarning := lst.lastWarning } := by
      simp only [process_line]
      rw [hpr]
    obtain ⟨lst2, hgl, hrun, hw⟩ := ih
      { run := lst.run, linenum := lst.linenum + 1, count := lst.count + 1,
        warnings := lst.warnings, lastWarning := lst.lastWarning }
      (fun t ht => hsub t (by rw [List.flatten_cons]; exact List.mem_append_right _ ht))
      hst
    refine ⟨lst2, ?_, hrun, hw⟩
    simp only [goLines]
    rw [hpl]
    exact hgl

/-- C5 (amended): starting from an EMPTY store, loading a well-formed file
(steps identified by natural keys, valid, with no duplicate natural keys)
twice in succession with overwrite disabled is idempotent: the first run
creates exactly the file's entities, the second run succeeds on the
resulting store and its statistics report zero new entities for every type
and an empty conflicting-change list.  (Against a pre-populated store the
conflicting-change half fails, see the counterexample: unapplied conflicts
recur.) -/
theorem second_run_reports_nothing (env : Env) (rows : List Row)
    (_hov : env.canOverwrite = false)
    (hok : ∀ s ∈ rows.flatten, StepOK env s)
    (hnd : (rows.flatten.map stepKey).Nodup) :
    ∃ stats1 stats2,
      process_file env false [] rows = (.ok stats1, storeOf 0 rows.flatten)
      ∧ process_file env false (storeOf 0 rows.flatten) rows
          = (.ok stats2, storeOf 0 rows.flatten)
      ∧ (∀ t, cGet stats2.new t = 0) ∧ stats2.changed = [] := by
  obtain ⟨lst1, hgl1, hst1, _⟩ := goLines_creates env rows [] (initLineSt [])
    (by simpa using hok) (by simpa using hnd) rfl rfl
  obtain ⟨lst2, hgl2, hrun2, _⟩ := goLines_noop env rows.flatten hok hnd rows
    (initLineSt (storeOf 0 rows.flatten)) (fun t ht => ht) rfl
  rw [List.nil_append] at hst1
  refine ⟨mkStats env false lst1, mkStats env false lst2, ?_, ?_, ?_, ?_⟩
  · unfold process_file
    rw [hgl1]
    simp [hst1]
  · unfold process_file
    rw [hgl2]
    have hs2 : lst2.run.store = storeOf 0 rows.flatten := by rw [hrun2]; rfl
    simp [hs2]
  · intro t
    have : (mkStats env false lst2).new = [] := by
      simp only [mkStats]
      rw [hrun2]
      rfl
    rw [this]
    rfl
  · have : (mkStats env false lst2).changed = [] := by
      simp only [mkStats]
      rw [hrun2]
      rfl
    exact this

/-- Witness for C5 (amended): a one-row file keyed natural='a'. -/
theorem second_run_reports_nothing_w :
    ∃ stats1 stats2,
      process_file ⟨false, false, [], fun _ => none⟩ false []
          [[("m", [("natural", "a"), ("x", "1")])]]
        = (.ok stats1, storeOf 0 [[("m", [("natural", "a"), ("x", "1")])]].flatten)
      ∧ process_file ⟨false, false, [], fun _ => none⟩ false
          (storeOf 0 [[("m", [("natural", "a"), ("x", "1")])]].flatten)
          [[("m", [("natural", "a"), ("x", "1")])]]
          = (.ok stats2, storeOf 0 [[("m", [("natural", "a"), ("x", "1")])]].flatten)
      ∧ (∀ t, cGet stats2.new t = 0) ∧ stats2.changed = [] :=
  second_run_reports_nothing ⟨false, false, [], fun _ => none⟩
    [[("m", [("natural", "a"), ("x", "1")])]] rfl (by decide) (by decide)

end Mibios
